import Mathlib

/-!
Verification of the streaming-pipeline program in `src/main.go`.

The Go program wires a producer, two bounded-parallel transform stages
(`step`), an error-stream merger (`Merge`) and a terminal `sink` together
with one shared cancellation context.  Below, each Go function is given a
shallow embedding:

* `sinkStep` embeds the body of the `sink` select loop (one iteration).
* `ProducerTrace` embeds the possible executions of `producer`.
* `StepSysStep` embeds the semaphore/worker discipline of `step`.
* `workerBody` embeds the ordered actions of one `step` worker goroutine.
* `stepLoopIter` embeds one iteration of the `step` read loop.
* `MergeStep` embeds the forwarder/wait-group discipline of `Merge`.
* `transformA`, `transformB`, `runStage` embed the example transforms and
  the per-item routing of results and errors.
-/

namespace GoPipeline

/-! ### Sink (src/main.go lines 38-60) -/

/-- Events the `sink` select statement can wake up on: the cancellation
context firing, a receive from the `errors` channel (a `nil` error is
modelled as `none`; Go delivers `nil` repeatedly once the channel is
closed), a value received from `values` with `ok = true`, and the
`values` channel reporting closed (`ok = false`). -/
inductive SinkEvent where
  | ctxDone
  | errRecv (e : Option String)
  | valRecv (v : String)
  | valuesClosed
  deriving DecidableEq, Repr

/-- Observable effect of one iteration of the `sink` loop: the log lines
emitted, whether `cancelFunc` was invoked, and whether the function
returned. -/
structure SinkAction where
  logged : List String
  cancels : Bool
  returns : Bool
  deriving DecidableEq, Repr

/-- One iteration of the `sink` select loop, branch by branch from
src/main.go lines 40-58:
`ctx.Done` logs the context error and returns; a non-nil error is logged
and `cancelFunc()` is called, then the loop continues; a nil error does
nothing; a received value is logged and the loop continues; a closed
`values` channel logs "done" and returns. -/
def sinkStep : SinkEvent → SinkAction
  | .ctxDone => { logged := ["context canceled"], cancels := false, returns := true }
  | .errRecv (some e) => { logged := ["error: " ++ e], cancels := true, returns := false }
  | .errRecv none => { logged := [], cancels := false, returns := false }
  | .valRecv v => { logged := ["sink: " ++ v], cancels := false, returns := false }
  | .valuesClosed => { logged := ["done"], cancels := false, returns := true }

/-! ### Example transforms (src/main.go lines 145-158) -/

/-- ASCII lower-casing, the embedding of Go `strings.ToLower` on the
ASCII-only inputs this program uses. -/
def goToLower (s : String) : String := ⟨s.data.map Char.toLower⟩

/-- List-level worker for `goTitle`: upper-cases a letter that follows a
non-letter (Go `strings.Title` capitalises the first letter of each
word). The boolean records whether the previous character was a letter. -/
def titleAux : Bool → List Char → List Char
  | _, [] => []
  | prevIsLetter, c :: rest =>
    (if c.isAlpha && !prevIsLetter then c.toUpper else c) :: titleAux c.isAlpha rest

/-- Embedding of Go `strings.Title` for the ASCII inputs this program
uses: the first letter of each word is upper-cased. -/
def goTitle (s : String) : String := ⟨titleAux false s.data⟩

/-- Embedding of `transformA` (src/main.go lines 145-148): returns the
lower-cased input and a nil error. The pair mirrors Go's
`(string, error)` return, with `none` for a nil error. -/
def transformA (s : String) : String × Option String :=
  (goToLower s, none)

/-- Embedding of `transformB` (src/main.go lines 150-158): fails with
"oh no" exactly on input "foo", otherwise returns the title-cased
input with a nil error. -/
def transformB (s : String) : String × Option String :=
  if s == "foo" then ("", some "oh no") else (goTitle s, none)

/-- Values a stage worker sends to its `outputChannel`: one send per
input item whose transform returned a nil error (src/main.go lines
97-102). Listed in input order; the real interleaving is
nondeterministic, so theorems compare multisets. -/
def stageResults (fn : String → String × Option String) (inputs : List String) : List String :=
  inputs.filterMap fun s => if (fn s).2.isNone then some (fn s).1 else none

/-- Errors a stage worker sends to its `errorChannel`: one send per input
item whose transform returned a non-nil error (src/main.go lines
97-100). -/
def stageErrors (fn : String → String × Option String) (inputs : List String) : List String :=
  inputs.filterMap fun s => (fn s).2

/-- Successful outputs of the two-stage pipeline of `main` (src/main.go
lines 160-176): stage 1 applies `transformA`, stage 2 applies
`transformB` to stage 1's results. -/
def pipelineResults (inputs : List String) : List String :=
  stageResults transformB (stageResults transformA inputs)

/-- Errors of the two-stage pipeline of `main`, as merged by
`Merge(ctx, step1errors, step2errors)` (src/main.go line 173); `Merge`
preserves all values, so the merged error stream carries the multiset
union of both stages' errors. -/
def pipelineErrors (inputs : List String) : List String :=
  stageErrors transformA inputs ++ stageErrors transformB (stageResults transformA inputs)

/-! ### Producer (src/main.go lines 14-36) -/

/-- Observable events on the producer's output stream: a value sent on
`outChannel`, or the channel being closed (the deferred `close` on
src/main.go line 21). -/
inductive PEvt (T : Type) where
  | send (v : T)
  | close
  deriving DecidableEq, Repr

/-- Possible executions of the `producer` goroutine body (src/main.go
lines 18-33), as the sequence of stream events it performs, given the
items not yet sent.  The flag `canc` records whether the cancellation
context ever fires during the run.  Each loop iteration selects between
`ctx.Done` (only ready when `canc = true`; the goroutine returns and the
deferred close runs) and sending the current item; when the item list is
exhausted the loop ends and the deferred close runs. -/
inductive ProducerTrace {T : Type} (canc : Bool) : List T → List (PEvt T) → Prop where
  | exhausted : ProducerTrace canc [] [.close]
  | cancelled (v : T) (rest : List T) (h : canc = true) :
      ProducerTrace canc (v :: rest) [.close]
  | send (v : T) (rest : List T) (tr : List (PEvt T)) :
      ProducerTrace canc rest tr → ProducerTrace canc (v :: rest) (.send v :: tr)

/-- Values sent in a producer event trace, in order. -/
def sentValues {T : Type} : List (PEvt T) → List T
  | [] => []
  | .send v :: tr => v :: sentValues tr
  | .close :: tr => sentValues tr

/-! ### Stage (src/main.go lines 62-115) -/

/-- Construction-time configuration of `step`.  The Go function's
signature (src/main.go lines 62-66) takes a context, an input channel
and a transform; there is no parallelism parameter and no error return:
construction always yields the two channels. -/
structure StepInit where
  limit : Int
  deriving DecidableEq, Repr

/-- Embedding of what `step` computes at construction time (src/main.go
lines 67-74): the semaphore capacity is the hardcoded constant
`limit := int64(2)`, independent of any caller input, and no validation
is performed. -/
def stepInit : StepInit := { limit := 2 }

/-- Modelled from the spec: the construction contract the spec describes
for a stage, "caller supplies ... a chain of (transform function,
parallelism K) pairs" with "if parallelism K <= 0, behavior is a
configuration error (reject at construction)".  Takes the caller's K
and rejects non-positive values; this definition follows the spec's
words and is compared against `stepInit`, which follows the source. -/
def stepInitSpec (K : Int) : Except String StepInit :=
  if K ≤ 0 then .error "configuration error" else .ok { limit := K }

/-- Phases of one `step` worker goroutine while it holds its semaphore
permit (src/main.go lines 92-103): sleeping (`time.Sleep`), invoking
`fn`, or sending on the output or error channel.  The permit is held
through all three phases because `sem1.Release(1)` is deferred to the
goroutine's return. -/
inductive WPhase where
  | sleeping
  | invoking
  | sending
  deriving DecidableEq, Repr

/-- State of the semaphore/worker system of one `step` call: the
semaphore's available weight and the list of in-flight workers (each
holding one unit of the semaphore). -/
structure StepSysState where
  avail : Nat
  workers : List WPhase
  deriving DecidableEq, Repr

/-- Initial state of a `step` call with capacity `limit`: the semaphore
is full (`semaphore.NewWeighted(limit)`, src/main.go line 74) and no
worker is in flight. -/
def stepSysInit (limit : Nat) : StepSysState := { avail := limit, workers := [] }

/-- Transitions of the `step` semaphore/worker system (src/main.go lines
76-112).  `dispatch` is the read loop acquiring one unit and spawning a
worker; `wake`, `finishInvoke` advance a worker through its phases;
`complete` is a worker's send finishing and the deferred
`sem1.Release(1)` running; `drain` is the read loop acquiring the full
capacity after the input channel closes. -/
inductive StepSysStep (limit : Nat) : StepSysState → StepSysState → Prop where
  | dispatch (a : Nat) (ws : List WPhase) (h : 0 < a) :
      StepSysStep limit ⟨a, ws⟩ ⟨a - 1, ws ++ [.sleeping]⟩
  | wake (a : Nat) (l r : List WPhase) :
      StepSysStep limit ⟨a, l ++ .sleeping :: r⟩ ⟨a, l ++ .invoking :: r⟩
  | finishInvoke (a : Nat) (l r : List WPhase) :
      StepSysStep limit ⟨a, l ++ .invoking :: r⟩ ⟨a, l ++ .sending :: r⟩
  | complete (a : Nat) (l r : List WPhase) :
      StepSysStep limit ⟨a, l ++ .sending :: r⟩ ⟨a + 1, l ++ r⟩
  | drain (a : Nat) (ws : List WPhase) (h : limit ≤ a) :
      StepSysStep limit ⟨a, ws⟩ ⟨a - limit, ws⟩

/-- Reachability for the `step` semaphore/worker system: states reached
from the initial full-semaphore state by zero or more transitions. -/
def StepReach (limit : Nat) (s : StepSysState) : Prop :=
  Relation.ReflTransGen (StepSysStep limit) (stepSysInit limit) s

/-- Number of workers whose transform invocation is currently active. -/
def activeInvocations (s : StepSysState) : Nat :=
  s.workers.count .invoking

/-- Ordered actions of one `step` worker goroutine body (src/main.go
lines 92-103), for a transform returning an error iff `isErr`:
`defer sem1.Release(1)` runs at return, hence after the send. -/
inductive WorkerAct where
  | sleep
  | invoke
  | sendToOutput
  | sendToError
  | release
  deriving DecidableEq, Repr

/-- Sequence of actions of one `step` worker goroutine in execution
order, from src/main.go lines 92-103: sleep three seconds, invoke `fn`,
send the error or the result, then return, at which point the deferred
`sem1.Release(1)` runs. -/
def workerBody (isErr : Bool) : List WorkerAct :=
  [.sleep, .invoke, if isErr then .sendToError else .sendToOutput, .release]

/-- Events one iteration of the `step` read loop (src/main.go lines
80-110) can wake up on: the cancellation context firing, a value
received from `inputChannel` with `ok = true` (paired with whether the
subsequent `sem1.Acquire(ctx, 1)` succeeded), or the input channel
reporting closed (`ok = false`). -/
inductive StepLoopEvent (In : Type) where
  | ctxDone
  | recvOk (s : In) (acquireOk : Bool)
  | recvClosed
  deriving DecidableEq, Repr

/-- Outcome of one iteration of the `step` read loop: either the `for`
loop runs another iteration (possibly having spawned a worker), or the
goroutine returns, at which point the deferred closes of
`outputChannel` and `errorChannel` (src/main.go lines 77-78) run. -/
inductive StepLoopAct (In : Type) where
  | continueLoop (spawned : Option In)
  | exitAndClose
  deriving DecidableEq, Repr

/-- One iteration of the `step` read loop, branch by branch from
src/main.go lines 81-109.  In the `ctx.Done` case the `break` statement
exits only the `select`, not the `for` loop, so the loop continues; the
same holds for the `break` after a failed `sem1.Acquire`.  Only the
closed-input branch executes `return`, running the deferred closes. -/
def stepLoopIter {In : Type} : StepLoopEvent In → StepLoopAct In
  | .ctxDone => .continueLoop none
  | .recvOk s true => .continueLoop (some s)
  | .recvOk _ false => .continueLoop none
  | .recvClosed => .exitAndClose

/-! ### Merge (src/main.go lines 117-143) -/

/-- State of one `Merge` call: the remaining values of each forwarder
goroutine still running (a forwarder leaves the list when it calls the
deferred `wg.Done`), the values sent on `out` so far, and whether `out`
has been closed. -/
structure MergeState (T : Type) where
  inputs : List (List T)
  out : List T
  closed : Bool

/-- Transitions of `Merge` (src/main.go lines 121-140), with `canc`
recording whether the cancellation context ever fires. `forward` is a
forwarder relaying one value from its channel to `out`; `finish` is a
forwarder whose channel closed (its `range` ends) calling `wg.Done`;
`abort` is a forwarder returning on `ctx.Done` (only when `canc = true`),
dropping its remaining values; `close` is the closer goroutine running
`close(out)` once `wg.Wait` returns, i.e. once no forwarder remains. -/
inductive MergeStep {T : Type} (canc : Bool) : MergeState T → MergeState T → Prop where
  | forward (l r : List (List T)) (v : T) (rest : List T) (out : List T) (c : Bool) :
      MergeStep canc ⟨l ++ (v :: rest) :: r, out, c⟩ ⟨l ++ rest :: r, out ++ [v], c⟩
  | finish (l r : List (List T)) (out : List T) (c : Bool) :
      MergeStep canc ⟨l ++ [] :: r, out, c⟩ ⟨l ++ r, out, c⟩
  | abort (l r : List (List T)) (xs : List T) (out : List T) (c : Bool) (h : canc = true) :
      MergeStep canc ⟨l ++ xs :: r, out, c⟩ ⟨l ++ r, out, c⟩
  | close (out : List T) :
      MergeStep canc ⟨[], out, false⟩ ⟨[], out, true⟩

/-- Initial state of `Merge(ctx, cs...)`: one forwarder per input
channel, nothing sent, `out` open. -/
def mergeInit {T : Type} (cs : List (List T)) : MergeState T :=
  { inputs := cs, out := [], closed := false }

/-- Reachability for the `Merge` system. -/
def MergeReach {T : Type} (canc : Bool) (cs : List (List T)) (s : MergeState T) : Prop :=
  Relation.ReflTransGen (MergeStep canc) (mergeInit cs) s

/-! ### Claim theorems: sink behavior -/

/-- Claim C2: whenever the sink receives a non-nil error from its errors
stream, it logs the error and immediately invokes the shared
cancellation function without returning, and this branch is the only
one in the sink (hence, transform errors being mere values on the error
stream, the only mechanism in the program) that invokes cancellation. -/
theorem sink_error_triggers_cancel :
    (∀ e : String, sinkStep (.errRecv (some e)) =
      { logged := ["error: " ++ e], cancels := true, returns := false }) ∧
    (∀ ev : SinkEvent, (sinkStep ev).cancels = true ↔ ∃ e, ev = .errRecv (some e)) := by
  refine ⟨fun e => rfl, fun ev => ?_⟩
  cases ev with
  | errRecv e => cases e <;> simp [sinkStep]
  | ctxDone => simp [sinkStep]
  | valRecv v => simp [sinkStep]
  | valuesClosed => simp [sinkStep]

/-- Claim C5: the sink returns exactly on a closed results stream (the
receive reports not-ok, logged "done") and on observing cancellation
(reporting the context's cause); an ordinary result is logged and the
loop continues. -/
theorem sink_termination :
    (∀ ev : SinkEvent, (sinkStep ev).returns = true ↔ (ev = .ctxDone ∨ ev = .valuesClosed)) ∧
    sinkStep .ctxDone = { logged := ["context canceled"], cancels := false, returns := true } ∧
    sinkStep .valuesClosed = { logged := ["done"], cancels := false, returns := true } ∧
    (∀ v : String, sinkStep (.valRecv v) =
      { logged := ["sink: " ++ v], cancels := false, returns := false }) := by
  refine ⟨fun ev => ?_, rfl, rfl, fun v => rfl⟩
  cases ev with
  | errRecv e => cases e <;> simp [sinkStep]
  | ctxDone => simp [sinkStep]
  | valRecv v => simp [sinkStep]
  | valuesClosed => simp [sinkStep]

/-- Claim C10: receiving a nil error (which Go delivers repeatedly once
the errors channel is closed) makes the sink neither log, nor cancel,
nor return; the sink can only return via the closed results stream or
via cancellation. -/
theorem sink_nil_error_is_ignored :
    sinkStep (.errRecv none) = { logged := [], cancels := false, returns := false } ∧
    (∀ ev : SinkEvent, (sinkStep ev).returns = true ↔ (ev = .ctxDone ∨ ev = .valuesClosed)) := by
  refine ⟨rfl, fun ev => ?_⟩
  cases ev with
  | errRecv e => cases e <;> simp [sinkStep]
  | ctxDone => simp [sinkStep]
  | valRecv v => simp [sinkStep]
  | valuesClosed => simp [sinkStep]

/-! ### Claim theorems: stage construction (C6) -/

/-- Claim C6 counterexample: `step` performs no construction-time
validation at all.  Its construction result is the fixed configuration
with the hardcoded limit 2 (of type `StepInit`, which has no error
alternative), whereas the spec-modelled construction `stepInitSpec`
would reject the parallelism value 0 as a configuration error; no
caller-supplied K exists in the source signature. -/
theorem step_construction_cex :
    stepInit = { limit := 2 } ∧ stepInitSpec 0 = .error "configuration error" := by
  constructor
  · rfl
  · rfl

/-- Claim C6 amended: stage construction takes no caller-supplied
parallelism and performs no validation; the semaphore capacity is the
hardcoded constant 2, which happens to be positive, and construction
always succeeds. -/
theorem step_construction_is_constant :
    stepInit.limit = 2 ∧ 0 < stepInit.limit := by
  constructor
  · rfl
  · decide

/-! ### Claim theorems: worker release order (C7) -/

/-- Claim C7 counterexample: in the worker goroutine's execution order,
the semaphore release does not precede the send — on both the success
path and the error path the deferred `sem1.Release(1)` runs strictly
after the send on the output or error channel. -/
theorem worker_release_before_send_cex :
    ¬ ((workerBody false).indexOf .release < (workerBody false).indexOf .sendToOutput) ∧
    ¬ ((workerBody true).indexOf .release < (workerBody true).indexOf .sendToError) := by
  decide

/-- Claim C7 amended: in every stage worker the permit is released only
when the worker goroutine returns, i.e. the deferred release runs after
the result or error send completes (release is the last action, after
the send, not before it). -/
theorem worker_release_is_last :
    (∀ b : Bool, (workerBody b).getLast? = some .release) ∧
    (workerBody false).indexOf .sendToOutput < (workerBody false).indexOf .release ∧
    (workerBody true).indexOf .sendToError < (workerBody true).indexOf .release := by
  refine ⟨fun b => ?_, by decide, by decide⟩
  cases b <;> rfl

/-! ### Claim theorems: step read loop on cancellation (C8) -/

/-- Claim C8: the claim says that on cancellation the stage's read loop
aborts and the stage closes both its streams; in the code the `break`
in the `ctx.Done` select case exits only the select, so the iteration
outcome on cancellation is to continue the loop, and the goroutine
returns (running the deferred closes of both channels) only when the
input channel reports closed. -/
theorem step_loop_cancellation_behavior :
    stepLoopIter (StepLoopEvent.ctxDone : StepLoopEvent String) = .continueLoop none ∧
    (∀ ev : StepLoopEvent String, stepLoopIter ev = .exitAndClose ↔ ev = .recvClosed) := by
  refine ⟨rfl, fun ev => ?_⟩
  cases ev with
  | ctxDone => simp [stepLoopIter]
  | recvOk s ok => cases ok <;> simp [stepLoopIter]
  | recvClosed => simp [stepLoopIter]

/-! ### Claim theorems: example transforms and scenario (C9) -/

/-- Claim C9: `transformA` lower-cases every string and never returns an
error; `transformB` returns an error exactly on input "foo" and
otherwise title-cases its input; consequently, on input
["FOO", "BAR", "BAX"] the two-stage pipeline sends exactly the results
"Bar" and "Bax" (compared as a multiset, since completion order is not
guaranteed) and exactly one error, for "foo". -/
theorem transforms_and_scenario :
    (∀ s : String, (transformA s).1 = goToLower s ∧ (transformA s).2 = none) ∧
    (∀ s : String, (transformB s).2.isSome = (s == "foo")) ∧
    (∀ s : String, s ≠ "foo" → (transformB s).1 = goTitle s) ∧
    (pipelineResults ["FOO", "BAR", "BAX"] : Multiset String) = {"Bar", "Bax"} ∧
    pipelineErrors ["FOO", "BAR", "BAX"] = ["oh no"] := by
  refine ⟨fun s => ⟨rfl, rfl⟩, fun s => ?_, fun s hs => ?_, ?_, rfl⟩
  · by_cases h : s == "foo" <;> simp [transformB, h]
  · have h : (s == "foo") = false := by simpa using hs
    simp [transformB, h]
  · rfl

/-- Claim C9 witness: the non-"foo" branch of the theorem evaluated at
the concrete input "bar". -/
theorem transforms_and_scenario_witness :
    (transformB "bar").1 = goTitle "bar" :=
  transforms_and_scenario.2.2.1 "bar" (by decide)

/-! ### Claim theorems: producer (C4) -/

/-- Number of close events in a producer event trace. -/
def closeCount {T : Type} : List (PEvt T) → Nat
  | [] => 0
  | .close :: tr => closeCount tr + 1
  | .send _ :: tr => closeCount tr

/-- Shape lemma: every producer execution sends some prefix of the item
list, in order, and then performs exactly one close; without
cancellation the prefix is the whole list. -/
theorem producerTrace_shape {T : Type} {canc : Bool} {items : List T} {tr : List (PEvt T)}
    (h : ProducerTrace canc items tr) :
    ∃ k, k ≤ items.length ∧ tr = (items.take k).map PEvt.send ++ [PEvt.close] ∧
      (canc = false → k = items.length) := by
  induction h with
  | exhausted => exact ⟨0, by simp⟩
  | cancelled v rest hc =>
      exact ⟨0, by simp, by simp, fun hf => by rw [hc] at hf; cases hf⟩
  | send v rest tr htr ih =>
      obtain ⟨k, hk, htr', hfull⟩ := ih
      refine ⟨k + 1, by simpa using Nat.succ_le_succ hk, ?_, fun hf => by simp [hfull hf]⟩
      simp [List.take_succ_cons, htr']

theorem closeCount_sends {T : Type} (l : List T) :
    closeCount (l.map PEvt.send) = 0 := by
  induction l with
  | nil => rfl
  | cons v l ih => simpa [closeCount] using ih

theorem closeCount_append {T : Type} (l₁ l₂ : List (PEvt T)) :
    closeCount (l₁ ++ l₂) = closeCount l₁ + closeCount l₂ := by
  induction l₁ with
  | nil => simp [closeCount]
  | cons e l ih =>
      cases e with
      | send v => exact ih
      | close =>
          have h : closeCount ((PEvt.close :: l) ++ l₂) = closeCount (l ++ l₂) + 1 := rfl
          have h2 : closeCount (PEvt.close :: l) = closeCount l + 1 := rfl
          rw [h, h2, ih]
          omega

theorem sentValues_sends_close {T : Type} (l : List T) :
    sentValues (l.map PEvt.send ++ [PEvt.close]) = l := by
  induction l with
  | nil => rfl
  | cons v l ih => simpa [sentValues] using ih

/-- Claim C4: for every finite input sequence, a cancellation-free
producer execution sends exactly the items of the sequence, in order,
and then closes the output stream; and every execution, whatever its
exit path, closes the stream exactly once and sends only a prefix of
the items (the remainder is dropped on cancellation). -/
theorem producer_emits_in_order_then_closes {T : Type} (canc : Bool) (items : List T)
    (tr : List (PEvt T)) (h : ProducerTrace canc items tr) :
    (canc = false → tr = items.map PEvt.send ++ [PEvt.close]) ∧
    closeCount tr = 1 ∧
    (∃ k, k ≤ items.length ∧ sentValues tr = items.take k) := by
  obtain ⟨k, hk, htr, hfull⟩ := producerTrace_shape h
  refine ⟨fun hf => ?_, ?_, ⟨k, hk, ?_⟩⟩
  · rw [htr, hfull hf, List.take_length]
  · rw [htr, closeCount_append, closeCount_sends]
    rfl
  · rw [htr, sentValues_sends_close]

/-- Claim C4 witness: the theorem applied to the concrete
cancellation-free execution of the producer on the items
["a", "b"]. -/
theorem producer_emits_witness :
    (false = false →
      [PEvt.send "a", PEvt.send "b", PEvt.close] = ["a", "b"].map PEvt.send ++ [PEvt.close]) ∧
    closeCount [PEvt.send "a", PEvt.send "b", PEvt.close] = 1 ∧
    (∃ k, k ≤ (["a", "b"] : List String).length ∧
      sentValues [PEvt.send "a", PEvt.send "b", PEvt.close] = ["a", "b"].take k) :=
  producer_emits_in_order_then_closes false ["a", "b"]
    [PEvt.send "a", PEvt.send "b", PEvt.close]
    (ProducerTrace.send _ _ _ (ProducerTrace.send _ _ _ ProducerTrace.exhausted))

/-! ### Claim theorems: bounded parallelism (C1) -/

/-- Preservation lemma: every transition of the step semaphore/worker
system keeps the sum of available semaphore weight and in-flight
workers at most the capacity. -/
theorem stepSysStep_inv {limit : Nat} {s t : StepSysState} (h : StepSysStep limit s t)
    (hs : s.avail + s.workers.length ≤ limit) : t.avail + t.workers.length ≤ limit := by
  cases h with
  | dispatch a ws ha => simp_all; omega
  | wake a l r => simp_all
  | finishInvoke a l r => simp_all
  | complete a l r => simp_all; omega
  | drain a ws ha => simp_all; omega

/-- Invariant: in every reachable state of a `step` call with capacity
`limit`, available weight plus in-flight workers is at most `limit`. -/
theorem stepReach_inv {limit : Nat} {s : StepSysState} (h : StepReach limit s) :
    s.avail + s.workers.length ≤ limit := by
  induction h with
  | refl => simp [stepSysInit]
  | tail _ hstep ih => exact stepSysStep_inv hstep ih

/-- Claim C1: for every capacity `limit` (in the source the hardcoded
`stepInit.limit = 2`) and every reachable state of the step
semaphore/worker system, at most `limit` invocations of the stage's
transform function are concurrently active, because every in-flight
worker holds one unit of the semaphore. -/
theorem step_bounded_parallelism (limit : Nat) (s : StepSysState) (h : StepReach limit s) :
    activeInvocations s ≤ limit := by
  have h1 : activeInvocations s ≤ s.workers.length := List.count_le_length _ _
  have h2 := stepReach_inv h
  omega

/-- Claim C1 witness: the bound applied to the concrete reachable state
of a capacity-2 stage in which both workers are simultaneously invoking
the transform. -/
theorem step_bounded_parallelism_witness :
    activeInvocations { avail := 0, workers := [.invoking, .invoking] } ≤ 2 := by
  have r0 : StepReach 2 (stepSysInit 2) := Relation.ReflTransGen.refl
  have r1 : StepReach 2 { avail := 1, workers := [.sleeping] } :=
    Relation.ReflTransGen.tail r0 (StepSysStep.dispatch 2 [] (by norm_num))
  have r2 : StepReach 2 { avail := 0, workers := [.sleeping, .sleeping] } :=
    Relation.ReflTransGen.tail r1 (StepSysStep.dispatch 1 [.sleeping] (by norm_num))
  have r3 : StepReach 2 { avail := 0, workers := [.invoking, .sleeping] } :=
    Relation.ReflTransGen.tail r2 (StepSysStep.wake 0 [] [.sleeping])
  have r4 : StepReach 2 { avail := 0, workers := [.invoking, .invoking] } :=
    Relation.ReflTransGen.tail r3 (StepSysStep.wake 0 [.invoking] [])
  exact step_bounded_parallelism 2 _ r4

/-! ### Claim theorems: Merge (C3) -/

/-- Preservation lemma: a cancellation-free `Merge` transition keeps the
multiset of sent values plus the multiset of values still held by
forwarders constant, and keeps the output closed only when no forwarder
remains. -/
theorem mergeStep_inv {T : Type} {s t : MergeState T} {tot : Multiset T}
    (h : MergeStep false s t)
    (hout : (s.out : Multiset T) + ↑s.inputs.flatten = tot)
    (hcl : s.closed = true → s.inputs = []) :
    ((t.out : Multiset T) + ↑t.inputs.flatten = tot) ∧ (t.closed = true → t.inputs = []) := by
  cases h with
  | forward l r v rest out c =>
      constructor
      · rw [← hout]
        rw [Multiset.coe_add, Multiset.coe_add, Multiset.coe_eq_coe]
        simp only [List.flatten_append, List.flatten_cons, List.append_assoc,
          List.singleton_append, List.cons_append, List.nil_append]
        exact List.Perm.append_left out
          (@List.perm_middle T v l.flatten (rest ++ r.flatten)).symm
      · intro hc
        exact absurd (hcl hc) (by simp)
  | finish l r out c =>
      constructor
      · rw [← hout]
        simp [List.flatten_append]
      · intro hc
        exact absurd (hcl hc) (by simp)
  | abort l r xs out c hcanc =>
      cases hcanc
  | close out =>
      exact ⟨by simpa using hout, fun _ => rfl⟩

/-- Invariant: in every cancellation-free reachable state of `Merge`,
the values sent on `out` plus the values still held by forwarders form
exactly the multiset of all input values, and `out` is closed only
when no forwarder remains. -/
theorem mergeReach_inv {T : Type} {cs : List (List T)} {s : MergeState T}
    (h : MergeReach false cs s) :
    ((s.out : Multiset T) + ↑s.inputs.flatten = (cs.flatten : Multiset T)) ∧
    (s.closed = true → s.inputs = []) := by
  induction h with
  | refl => simp [mergeInit]
  | tail _ hstep ih => exact mergeStep_inv hstep ih.1 ih.2

/-- Progress lemma: one forwarder can relay its whole channel, after
which it finishes. -/
theorem merge_drain_one {T : Type} (c : List T) (rest : List (List T)) (out : List T) :
    Relation.ReflTransGen (MergeStep false) ⟨c :: rest, out, false⟩ ⟨rest, out ++ c, false⟩ := by
  induction c generalizing out with
  | nil =>
      simpa using Relation.ReflTransGen.single (MergeStep.finish [] rest out false)
  | cons v c ih =>
      have h1 : MergeStep false ⟨(v :: c) :: rest, out, false⟩ ⟨c :: rest, out ++ [v], false⟩ :=
        MergeStep.forward [] rest v c out false
      have h2 := ih (out ++ [v])
      simpa [List.append_assoc] using Relation.ReflTransGen.head h1 h2

/-- Progress lemma: all forwarders can relay all their values in order,
leaving no forwarder running. -/
theorem merge_drain_all {T : Type} (cs : List (List T)) (out : List T) :
    Relation.ReflTransGen (MergeStep false) ⟨cs, out, false⟩ ⟨[], out ++ cs.flatten, false⟩ := by
  induction cs generalizing out with
  | nil => simpa using Relation.ReflTransGen.refl (r := MergeStep false) (a := ⟨[], out, false⟩)
  | cons c cs ih =>
      refine Relation.ReflTransGen.trans (merge_drain_one c cs out) ?_
      simpa [List.append_assoc] using ih (out ++ c)

/-- Claim C3: in every cancellation-free execution of `Merge` on N
input streams, any state in which the output stream is closed has sent
exactly the multiset union of all input values (total length the sum of
the input sizes) and has no forwarder left (every input stream has
closed); and such a closed state is in fact reached, including for
N = 0, where the output closes immediately with nothing sent. -/
theorem merge_multiset_and_close {T : Type} (cs : List (List T)) :
    (∀ s : MergeState T, MergeReach false cs s → s.closed = true →
      (s.out : Multiset T) = ↑cs.flatten ∧ s.inputs = [] ∧
      s.out.length = (cs.map List.length).sum) ∧
    (∃ s : MergeState T, MergeReach false cs s ∧ s.closed = true ∧ s.out = cs.flatten) := by
  constructor
  · intro s hs hc
    obtain ⟨hm, hcl⟩ := mergeReach_inv hs
    have hin := hcl hc
    rw [hin] at hm
    simp at hm
    refine ⟨Multiset.coe_eq_coe.2 hm, hin, ?_⟩
    simpa [List.length_flatten] using hm.length_eq
  · refine ⟨⟨[], cs.flatten, true⟩, ?_, rfl, rfl⟩
    have h1 := merge_drain_all cs []
    have h2 : MergeStep false (⟨[], cs.flatten, false⟩ : MergeState T) ⟨[], cs.flatten, true⟩ :=
      MergeStep.close _
    exact Relation.ReflTransGen.tail (by simpa using h1) h2

/-- Claim C3 witness: the theorem applied to the two concrete input
streams [1] and [2] and the concrete closed terminal state that has
sent 1 and then 2. -/
theorem merge_multiset_witness :
    (([1, 2] : List ℕ) : Multiset ℕ) = ↑([[1], [2]] : List (List ℕ)).flatten ∧
    ([] : List (List ℕ)) = [] ∧
    ([1, 2] : List ℕ).length = (([[1], [2]] : List (List ℕ)).map List.length).sum := by
  have r0 : MergeReach false [[1], [2]] (mergeInit [[1], [2]]) := Relation.ReflTransGen.refl
  have r1 : MergeReach false [[1], [2]] ⟨[[], [2]], [1], false⟩ :=
    Relation.ReflTransGen.tail r0 (MergeStep.forward [] [[2]] 1 [] [] false)
  have r2 : MergeReach false [[1], [2]] ⟨[[2]], [1], false⟩ :=
    Relation.ReflTransGen.tail r1 (MergeStep.finish [] [[2]] [1] false)
  have r3 : MergeReach false [[1], [2]] ⟨[[]], [1, 2], false⟩ :=
    Relation.ReflTransGen.tail r2 (MergeStep.forward [] [] 2 [] [1] false)
  have r4 : MergeReach false [[1], [2]] ⟨[], [1, 2], false⟩ :=
    Relation.ReflTransGen.tail r3 (MergeStep.finish [] [] [1, 2] false)
  have r5 : MergeReach false [[1], [2]] ⟨[], [1, 2], true⟩ :=
    Relation.ReflTransGen.tail r4 (MergeStep.close [1, 2])
  exact (merge_multiset_and_close [[1], [2]]).1 ⟨[], [1, 2], true⟩ r5 rfl

end GoPipeline
